import Mathlib

/-!
# amwebhook: the Alertmanager webhook relay (`main.go`)

A shallow embedding of `asJson`, `getGmailService`, `gmailSend`, `sms` and
`webhook`.  Go strings are lists of runes.  Everything outside the program
(the environment variables, the JSON decoder applied to the request body, the
files, the mail and SMS providers) is a `World`; the program threads a state
that records, in order, every effect it performs.
-/

namespace Amwebhook

/-- Go `string`, as its sequence of runes. -/
abbrev Str := List Char

/-! ## Library functions used by `main.go` -/

/-- The class `\s` of Go's `regexp` (RE2 syntax): tab, newline, form feed,
carriage return, space. -/
def isReSpace (c : Char) : Bool :=
  c == '\t' || c == '\n' || c == Char.ofNat 12 || c == '\r' || c == ' '

/-- Go `unicode.IsSpace`: the Latin-1 spaces (tab, newline, vertical tab, form
feed, carriage return, space, U+0085, U+00A0) and the other runes with the
White_Space property. -/
def isSpace (c : Char) : Bool :=
  let n := c.toNat
  (9 ≤ n && n ≤ 13) || n == 0x20 || n == 0x85 || n == 0xA0 || n == 0x1680 ||
  (0x2000 ≤ n && n ≤ 0x200A) || n == 0x2028 || n == 0x2029 || n == 0x202F ||
  n == 0x205F || n == 0x3000

/-- Removes the trailing runes that satisfy `p`. -/
def dropTrailing (p : Char → Bool) (s : Str) : Str :=
  ((s.reverse).dropWhile p).reverse

/-- Go `strings.TrimSpace`: the string without its leading and trailing
`unicode.IsSpace` runes. -/
def TrimSpace (s : Str) : Str :=
  dropTrailing isSpace (s.dropWhile isSpace)

/-- Go `unicode.ToUpper`: the ASCII letters are mapped directly, every other
rune through the Unicode case tables `tbl`. -/
def toUpperRune (tbl : Char → Char) (r : Char) : Char :=
  if r.toNat ≤ 0x7F then
    if 97 ≤ r.toNat ∧ r.toNat ≤ 122 then Char.ofNat (r.toNat - 32) else r
  else tbl r

/-- Go `strings.ToUpper`: every rune mapped by `unicode.ToUpper`. -/
def ToUpper (tbl : Char → Char) (s : Str) : Str :=
  s.map (toUpperRune tbl)

/-- An anchored match of `\s*,\s*` at the start of `s`: the greedy run of `\s`,
one comma, the greedy run of `\s`.  Returns what follows the match. -/
def matchHere (s : Str) : Option Str :=
  match s.dropWhile isReSpace with
  | ',' :: rest => some (rest.dropWhile isReSpace)
  | _ => none

/-- The leftmost match of `\s*,\s*` in `s`: the text before it and the text
after it. -/
def findMatch : Str → Option (Str × Str)
  | [] => none
  | c :: cs =>
    match matchHere (c :: cs) with
    | some rest => some ([], rest)
    | none =>
      match findMatch cs with
      | some (pre, rest) => some (c :: pre, rest)
      | none => none

/-- The loop of Go `(*Regexp).Split`: the text between successive matches, and
after the last match the rest of the string.  A match of `\s*,\s*` is never
empty, so every round consumes input; the fuel bounds the number of rounds. -/
def splitFrom : Nat → Str → List Str
  | 0, s => [s]
  | n + 1, s =>
    match findMatch s with
    | none => [s]
    | some (pre, rest) => pre :: splitFrom n rest

/-- Go `regexp.MustCompile("\\s*,\\s*").Split(s, -1)`; the empty string gives
one empty piece. -/
def regSplit (s : Str) : List Str :=
  if s = [] then [[]] else splitFrom s.length s

/-- Go `strings.Split(s, ",")`. -/
def splitComma : Str → List Str
  | [] => [[]]
  | c :: cs =>
    if c = ',' then [] :: splitComma cs
    else
      match splitComma cs with
      | p :: ps => (c :: p) :: ps
      | [] => [[c]]

/-- The runes `encoding/json` writes unchanged inside a string (with its
default HTML escaping): everything from U+0020 on except the double quote, the
backslash, `<`, `>`, `&`, U+2028 and U+2029. -/
def jsonSafe (c : Char) : Bool :=
  let n := c.toNat
  decide (0x20 ≤ n) && n != 0x22 && n != 0x5C && n != 0x3C && n != 0x3E && n != 0x26 &&
  n != 0x2028 && n != 0x2029

/-- The hexadecimal digits of `encoding/json`, "0123456789abcdef". -/
def hexDigit (k : Nat) : Char :=
  if k < 10 then Char.ofNat (48 + k) else Char.ofNat (87 + k)

/-- The escape `encoding/json` writes for a rune that is not `jsonSafe`: a
backslash before the double quote and the backslash, the short forms for
newline, carriage return and tab, `\u202x` for U+2028 and U+2029, and `\u00xx`
for every other one.  Go releases from 1.22 on write backspace and form feed as
`\b` and `\f` (`short`), the earlier ones as `\u0008` and `\u000c`. -/
def jsonEscape (short : Bool) (c : Char) : Str :=
  let n := c.toNat
  if c = '\\' ∨ c = '"' then ['\\', c]
  else if short = true ∧ n = 8 then ['\\', 'b']
  else if short = true ∧ n = 12 then ['\\', 'f']
  else if c = '\n' then ['\\', 'n']
  else if c = '\r' then ['\\', 'r']
  else if c = '\t' then ['\\', 't']
  else if n = 0x2028 ∨ n = 0x2029 then ['\\', 'u', '2', '0', '2', hexDigit (n % 16)]
  else ['\\', 'u', '0', '0', hexDigit (n / 16), hexDigit (n % 16)]

/-- A JSON string literal as `encoding/json` writes it. -/
def jsonQuote (short : Bool) (s : Str) : Str :=
  '"' :: (s.flatMap fun c => if jsonSafe c then [c] else jsonEscape short c) ++ ['"']

/-- The record written by `asJson`. -/
structure responseJSON where
  Status : Nat
  Message : Str
deriving DecidableEq

/-- Go `json.Marshal` of a `responseJSON`. -/
def jsonMarshal (short : Bool) (d : responseJSON) : Str :=
  "\x7b\"Status\":".toList ++ Nat.toDigits 10 d.Status ++ ",\"Message\":".toList ++
    jsonQuote short d.Message ++ "\x7d".toList

/-! ## Reading a JSON response -/

/-- The value of a hexadecimal digit. -/
def hexVal (c : Char) : Option Nat :=
  let n := c.toNat
  if 48 ≤ n ∧ n ≤ 57 then some (n - 48)
  else if 97 ≤ n ∧ n ≤ 102 then some (n - 87)
  else if 65 ≤ n ∧ n ≤ 70 then some (n - 55)
  else none

/-- The rune of a `\uXXXX` escape (RFC 8259); the halves of a surrogate pair
are not read. -/
def hex4 (a b c d : Char) : Option Char :=
  match hexVal a, hexVal b, hexVal c, hexVal d with
  | some x, some y, some z, some t =>
    let n := ((x * 16 + y) * 16 + z) * 16 + t
    if n.isValidChar then some (Char.ofNat n) else none
  | _, _, _, _ => none

/-- The rune of a two-character escape (RFC 8259). -/
def simpleEscape (e : Char) : Option Char :=
  if e = '"' then some '"'
  else if e = '\\' then some '\\'
  else if e = '/' then some '/'
  else if e = 'b' then some (Char.ofNat 8)
  else if e = 'f' then some (Char.ofNat 12)
  else if e = 'n' then some '\n'
  else if e = 'r' then some '\r'
  else if e = 't' then some '\t'
  else none

/-- Reads one rune of the inside of a JSON string literal (RFC 8259): an
escape, or an unescaped rune, which is neither the double quote, nor the
backslash, nor a control character.  Returns the rune and the text after it. -/
def decodeOne : Str → Option (Char × Str)
  | [] => none
  | c :: rest =>
    if c = '\\' then
      match rest with
      | [] => none
      | e :: rest1 =>
        if e = 'u' then
          match rest1 with
          | a :: b :: c2 :: d :: rest2 => (hex4 a b c2 d).map fun ch => (ch, rest2)
          | _ => none
        else (simpleEscape e).map fun ch => (ch, rest1)
    else if c.toNat < 0x20 ∨ c = '"' then none
    else some (c, rest)

/-- Reads the inside of a JSON string literal up to its closing quote: the
string it denotes and the text after the quote.  Every round consumes input;
the fuel bounds the number of rounds. -/
def unquoteFrom : Nat → Str → Option (Str × Str)
  | 0, _ => none
  | n + 1, s =>
    match decodeOne s with
    | some (ch, rest) =>
      match unquoteFrom n rest with
      | some (t, r) => some (ch :: t, r)
      | none => none
    | none =>
      match s with
      | c :: rest => if c = '"' then some ([], rest) else none
      | [] => none

/-- Reads the literal text `p` at the start of a string: what follows it. -/
def expect : Str → Str → Option Str
  | [], s => some s
  | _ :: _, [] => none
  | p :: ps, c :: cs => if p = c then expect ps cs else none

/-- Reads a non-empty run of decimal digits: its value and the text after it. -/
def readNat (s : Str) : Option (Nat × Str) :=
  let ds := s.takeWhile Char.isDigit
  if ds = [] then none
  else some (ds.foldl (fun a c => 10 * a + (c.toNat - 48)) 0, s.dropWhile Char.isDigit)

/-- Reads a JSON text of the shape `asJson` writes, an object with a number
field "Status" and a string field "Message": the record it denotes, and nothing
for any other text. -/
def readResponse (s : Str) : Option responseJSON :=
  match expect "\x7b\"Status\":".toList s with
  | none => none
  | some s1 =>
    match readNat s1 with
    | none => none
    | some (n, s2) =>
      match expect ",\"Message\":\"".toList s2 with
      | none => none
      | some s3 =>
        match unquoteFrom s3.length s3 with
        | none => none
        | some (m, s4) => if s4 = "\x7d".toList then some { Status := n, Message := m } else none

/-! ## Data model -/

/-- Go `template.KV`, a `map[string]string`, as an association list read
through `KV.get`. -/
abbrev KV := List (Str × Str)

/-- Go map indexing `m[k]`: the value bound to `k`, the empty string when the
key is absent. -/
def KV.get (m : KV) (k : Str) : Str :=
  match m.lookup k with
  | some v => v
  | none => []

/-- Go `template.Alert`, the fields `main.go` reads. -/
structure Alert where
  Status : Str
  Labels : KV
  Annotations : KV
deriving DecidableEq

/-- Go `template.Data`, the fields `main.go` reads. -/
structure Data where
  GroupLabels : KV
  CommonLabels : KV
  Alerts : List Alert
deriving DecidableEq

/-- The fields of `email.Email` set by `gmailSend`. -/
structure Email where
  From : Str
  To : List Str
  Subject : Str
  Text : Str
deriving DecidableEq

/-- The client built by `gotwilio.NewTwilioClient`. -/
structure Twilio where
  AccountSid : Str
  AuthToken : Str
deriving DecidableEq

/-- The two notifiers. -/
inductive Notifier where
  | gmailSend
  | sms
deriving DecidableEq

/-- The log lines of `main.go`, one constructor for each format string. -/
inductive LogMsg where
  /-- "Unable to read client secret file: %v" -/
  | readSecret
  /-- "Unable to parse client secret file to config: %v" -/
  | parseSecret
  /-- "Unable to get token file: %v" -/
  | tokenFile
  /-- "Unable to get token. %v" -/
  | token
  /-- "Unable to inititate gmailService. %v" -/
  | initService
  /-- "sending gmail..." -/
  | sendingGmail
  /-- "Unable to get Gmail service: %v", written by `log.Fatalf` -/
  | fatalGmailService
  /-- "error to convert into bytes: %v" -/
  | toBytes
  /-- "Error sending gmail: %v" -/
  | errorSendingGmail
  /-- "sending sms through twilio..." -/
  | sendingSms
  /-- "error sending SMS: %v" -/
  | errorSendingSMS
  /-- "ignore empty recipient" -/
  | ignoreEmptyRecipient
  /-- "Alerts: GroupLabels=%v, CommonLabels=%v" -/
  | alerts (groupLabels commonLabels : KV)
  /-- "Alert: status=%s,Labels=%v,Annotations=%v" -/
  | alert (status : Str) (labels annotations : KV)
  /-- "no action on severity: %s" -/
  | noAction (severity : Str)
deriving DecidableEq

/-- The effects of a run, in the order they happen. -/
inductive Event where
  /-- A line written by `log.Printf` or `log.Fatalf`. -/
  | log (m : LogMsg)
  /-- Entry into a notifier called with an alert. -/
  | enter (n : Notifier) (a : Alert)
  /-- The call `gmailService.Users.Messages.Send("me", &message).Do()`, with the
  email the message was serialised from. -/
  | gmailDo (e : Email)
  /-- The call `twilio.SendSMS(from, to, body, "", "")`. -/
  | sendSMS (client : Twilio) (sender recipient body : Str)
  /-- The call `w.WriteHeader(status)`. -/
  | writeHeader (status : Nat)
  /-- The body written to the response by `fmt.Fprint(w, json)`. -/
  | write (body : Str)
deriving DecidableEq

/-- Everything outside the program. -/
structure World where
  /-- Value of `os.Getenv`. -/
  getenv : Str → Str
  /-- Result of `json.NewDecoder(r.Body).Decode(&data)` on a request body: the
  decoded data, or the message of the error. -/
  decode : Str → Except Str Data
  /-- Whether the `k`-th fallible external step of the run (file read, parse,
  serialisation, provider call) succeeds, counted from 0 in execution order. -/
  ok : Nat → Bool
  /-- The Unicode upper-case tables. -/
  upper : Char → Char
  /-- Whether the Go release writes backspace and form feed as `\b` and `\f`
  in JSON (from Go 1.22 on) rather than as `\u0008` and `\u000c`. -/
  shortEscapes : Bool

/-- State of a run: the effects so far and the number of external steps taken. -/
structure St where
  trace : List Event
  step : Nat
deriving DecidableEq

/-- Result of running a piece of the handler: it returns, or the process has
been terminated by `os.Exit`. -/
inductive Run where
  | cont (st : St)
  | exit (st : St)
deriving DecidableEq

/-- The state in which a run ends. -/
def Run.st : Run → St
  | .cont st => st
  | .exit st => st

/-- Whether the run returned to its caller. -/
def Run.returned : Run → Bool
  | .cont _ => true
  | .exit _ => false

/-- Sequencing: `k` runs after `r` unless the process has exited. -/
def Run.andThen (r : Run) (k : St → Run) : Run :=
  match r with
  | .cont st => k st
  | .exit st => .exit st

/-- Records an effect. -/
def St.emit (st : St) (e : Event) : St :=
  { st with trace := st.trace ++ [e] }

/-- Go `log.Printf`. -/
def St.log (st : St) (m : LogMsg) : St :=
  st.emit (.log m)

/-- One fallible external step: its outcome, and the state after it. -/
def extStep (w : World) (st : St) : Bool × St :=
  (w.ok st.step, { st with step := st.step + 1 })

/-! ## The program -/

/-- Go `asJson` (main.go:29-39): marshals the record, writes the status line,
then the body. -/
def asJson (w : World) (status : Nat) (message : Str) (st : St) : St :=
  let data : responseJSON := { Status := status, Message := message }
  let json := jsonMarshal w.shortEscapes data
  (st.emit (.writeHeader status)).emit (.write json)

/-- Go `getGmailService` (main.go:41-81): five fallible steps (read the client
secret, parse it, open the token file, decode the token, create the service);
the first failure is logged and returned.  The result is `true` when the
returned error is nil. -/
def getGmailService (w : World) (st : St) : Bool × St :=
  let (ok, st) := extStep w st
  if !ok then (false, st.log .readSecret) else
  let (ok, st) := extStep w st
  if !ok then (false, st.log .parseSecret) else
  let (ok, st) := extStep w st
  if !ok then (false, st.log .tokenFile) else
  let (ok, st) := extStep w st
  if !ok then (false, st.log .token) else
  let (ok, st) := extStep w st
  if !ok then (false, st.log .initService) else
  (true, st)

/-- The email built by `gmailSend` (main.go:93-99). -/
def buildEmail (w : World) (alert : Alert) : Email :=
  { From := w.getenv "GMAIL_FROM".toList
    To := regSplit (alert.Annotations.get "emails".toList)
    Subject := "ICP Email Notification".toList
    Text := alert.Annotations.get "summary".toList }

/-- Go `gmailSend` (main.go:83-112).  When `getGmailService` fails, `log.Fatalf`
writes its line and terminates the process. -/
def gmailSend (w : World) (alert : Alert) (st : St) : Run :=
  let st := (st.emit (.enter .gmailSend alert)).log .sendingGmail
  let (ok, st) := getGmailService w st
  if !ok then .exit (st.log .fatalGmailService) else
  let e := buildEmail w alert
  let (ok, st) := extStep w st
  if !ok then .cont (st.log .toBytes) else
  let st := st.emit (.gmailDo e)
  let (ok, st) := extStep w st
  if !ok then .cont (st.log .errorSendingGmail) else
  .cont st

/-- The loop of `sms` over the recipients (main.go:122-131). -/
def smsLoop (w : World) (twilio : Twilio) (sender message : Str) : List Str → St → St
  | [], st => st
  | r :: rs, st =>
    if TrimSpace r ≠ [] then
      let st := st.emit (.sendSMS twilio sender r message)
      let (ok, st) := extStep w st
      smsLoop w twilio sender message rs (if !ok then st.log .errorSendingSMS else st)
    else
      smsLoop w twilio sender message rs (st.log .ignoreEmptyRecipient)

/-- The message body built by `sms` (main.go:118). -/
def smsMessage (alert : Alert) : Str :=
  alert.Annotations.get "summary".toList ++ " Status: ".toList ++ alert.Status

/-- Go `sms` (main.go:114-132). -/
def sms (w : World) (alert : Alert) (st : St) : St :=
  let st := (st.emit (.enter .sms alert)).log .sendingSms
  let twilio : Twilio :=
    { AccountSid := w.getenv "TWILIO_ACCOUNT".toList, AuthToken := w.getenv "TWILIO_TOKEN".toList }
  let sender := w.getenv "TWILIO_FROM".toList
  let message := smsMessage alert
  let recipients := alert.Annotations.get "phones".toList
  smsLoop w twilio sender message (regSplit recipients) st

/-- The body of the loop of `webhook` for one alert (main.go:145-156). -/
def alertBody (w : World) (alert : Alert) (st : St) : Run :=
  let st := st.log (.alert alert.Status alert.Labels alert.Annotations)
  let severity := alert.Labels.get "severity".toList
  let up := ToUpper w.upper severity
  if up = "CRITICAL".toList then
    (gmailSend w alert st).andThen fun st => .cont (sms w alert st)
  else if up = "WARNING".toList then
    gmailSend w alert st
  else
    .cont (st.log (.noAction severity))

/-- The loop of `webhook` over `data.Alerts` (main.go:144-157). -/
def alertLoop (w : World) : List Alert → St → Run
  | [], st => .cont st
  | alert :: rest, st => (alertBody w alert st).andThen (alertLoop w rest)

/-- Go `webhook` (main.go:134-160) on a request with the given body. -/
def webhook (w : World) (body : Str) (st : St) : Run :=
  match w.decode body with
  | .error err => .cont (asJson w 400 err st)
  | .ok data =>
    let st := st.log (.alerts data.GroupLabels data.CommonLabels)
    (alertLoop w data.Alerts st).andThen fun st => .cont (asJson w 200 "success".toList st)

/-! ## Observations on a trace -/

/-- The notifier calls of a trace, in order. -/
def calls : List Event → List (Notifier × Alert)
  | [] => []
  | .enter n a :: es => (n, a) :: calls es
  | _ :: es => calls es

/-- The SMS sends of a trace, in order: recipient and message body. -/
def smsSends : List Event → List (Str × Str)
  | [] => []
  | .sendSMS _ _ r m :: es => (r, m) :: smsSends es
  | _ :: es => smsSends es

/-- The emails sent in a trace, in order. -/
def gmailSends : List Event → List Email
  | [] => []
  | .gmailDo e :: es => e :: gmailSends es
  | _ :: es => gmailSends es

/-- The HTTP responses written in a trace, in order: status codes and bodies. -/
def responses : List Event → List Event
  | [] => []
  | .writeHeader n :: es => .writeHeader n :: responses es
  | .write b :: es => .write b :: responses es
  | _ :: es => responses es

/-- The number of "ignore empty recipient" lines in a trace. -/
def skipLines (es : List Event) : Nat :=
  es.count (.log .ignoreEmptyRecipient)

/-! ## The dispatch the specification describes -/

/-- The notifiers the specification assigns to an alert: email then SMS when the
upper-cased severity is CRITICAL, email when it is WARNING, none otherwise. -/
def dispatch (w : World) (alert : Alert) : List (Notifier × Alert) :=
  let up := ToUpper w.upper (alert.Labels.get "severity".toList)
  if up = "CRITICAL".toList then [(.gmailSend, alert), (.sms, alert)]
  else if up = "WARNING".toList then [(.gmailSend, alert)]
  else []

/-- Case folding of the ASCII letters, to state that the match on the severity
ignores case: the upper-case letters go to lower case. -/
def foldCase (c : Char) : Char :=
  if 65 ≤ c.toNat ∧ c.toNat ≤ 90 then Char.ofNat (c.toNat + 32) else c

/-- The recipients the specification describes: the pieces of the split on
commas, each with its surrounding whitespace removed. -/
def trimmedPieces (s : Str) : List Str :=
  (splitComma s).map TrimSpace

/-! ## Concrete inputs -/

/-- A world in which every external step succeeds, the environment is empty and
every body decodes to `d`. -/
def worldOk (d : Data) : World :=
  { getenv := fun _ => [], decode := fun _ => .ok d, ok := fun _ => true,
    upper := id, shortEscapes := false }

/-- A world in which every external step fails and every body decodes to `d`. -/
def worldFail (d : Data) : World :=
  { worldOk d with ok := fun _ => false }

/-- A world in which no body decodes: the decoder fails with message `e`. -/
def worldBad (e : Str) : World :=
  { worldOk ⟨[], [], []⟩ with decode := fun _ => .error e }

/-- An alert with the given severity label, summary, emails and phones. -/
def mkAlert (severity summary emails phones : String) : Alert :=
  { Status := "firing".toList
    Labels := [("severity".toList, severity.toList)]
    Annotations := [("summary".toList, summary.toList), ("emails".toList, emails.toList),
      ("phones".toList, phones.toList)] }

/-- The initial state of a run. -/
def st0 : St := { trace := [], step := 0 }

/-- A batch of one alert. -/
def batchOf (a : Alert) : Data :=
  { GroupLabels := [], CommonLabels := [], Alerts := [a] }

/-- A warning alert. -/
def warningAlert : Alert := mkAlert "warning" "disk full" "ops@x.com" "+1"

/-- A critical alert whose phone list has an empty entry. -/
def criticalAlert : Alert := mkAlert "critical" "disk full" "ops@x.com" "+1,,+2"

/-- A critical alert whose recipient lists start with a space. -/
def paddedAlert : Alert := mkAlert "critical" "disk full" " a@x.com ,b@y.com" " +1"

/-- A critical alert whose severity is written with a capital. -/
def capitalAlert : Alert := mkAlert "Critical" "disk full" "ops@x.com" "+1"

/-- An alert without annotations. -/
def bareAlert : Alert := { Status := "firing".toList, Labels := [], Annotations := [] }

/-! ## Traces -/

theorem calls_append (xs ys : List Event) : calls (xs ++ ys) = calls xs ++ calls ys := by
  induction xs with
  | nil => rfl
  | cons e es ih => cases e <;> simp [calls, ih]

theorem smsSends_append (xs ys : List Event) :
    smsSends (xs ++ ys) = smsSends xs ++ smsSends ys := by
  induction xs with
  | nil => rfl
  | cons e es ih => cases e <;> simp [smsSends, ih]

theorem gmailSends_append (xs ys : List Event) :
    gmailSends (xs ++ ys) = gmailSends xs ++ gmailSends ys := by
  induction xs with
  | nil => rfl
  | cons e es ih => cases e <;> simp [gmailSends, ih]

theorem responses_append (xs ys : List Event) :
    responses (xs ++ ys) = responses xs ++ responses ys := by
  induction xs with
  | nil => rfl
  | cons e es ih => cases e <;> simp [responses, ih]

theorem skipLines_append (xs ys : List Event) :
    skipLines (xs ++ ys) = skipLines xs + skipLines ys := by
  simp [skipLines]

/-- The trace after `getGmailService` is the trace before it followed by log
lines only. -/
theorem getGmailService_trace (w : World) (st : St) :
    ∃ ms : List LogMsg, (getGmailService w st).2.trace = st.trace ++ ms.map Event.log := by
  unfold getGmailService extStep
  simp only [St.log, St.emit]
  split_ifs
  · exact ⟨[.readSecret], by simp⟩
  · exact ⟨[.parseSecret], by simp⟩
  · exact ⟨[.tokenFile], by simp⟩
  · exact ⟨[.token], by simp⟩
  · exact ⟨[.initService], by simp⟩
  · exact ⟨[], by simp⟩

theorem calls_logs (ms : List LogMsg) : calls (ms.map Event.log) = [] := by
  induction ms with
  | nil => rfl
  | cons m ms ih => simpa [calls] using ih

theorem smsSends_logs (ms : List LogMsg) : smsSends (ms.map Event.log) = [] := by
  induction ms with
  | nil => rfl
  | cons m ms ih => simpa [smsSends] using ih

theorem gmailSends_logs (ms : List LogMsg) : gmailSends (ms.map Event.log) = [] := by
  induction ms with
  | nil => rfl
  | cons m ms ih => simpa [gmailSends] using ih

theorem responses_logs (ms : List LogMsg) : responses (ms.map Event.log) = [] := by
  induction ms with
  | nil => rfl
  | cons m ms ih => simpa [responses] using ih

/-- The shape of the trace of `gmailSend`: its entry, its first log line, the
log lines of `getGmailService`, at most one send, and log lines. -/
theorem gmailSend_trace (w : World) (a : Alert) (st : St) :
    ∃ (ms ms2 : List LogMsg) (ds : List Email),
      (gmailSend w a st).st.trace =
        st.trace ++ (Event.enter .gmailSend a :: Event.log .sendingGmail ::
          (ms.map Event.log ++ ds.map Event.gmailDo ++ ms2.map Event.log)) := by
  unfold gmailSend
  generalize hst1 : (st.emit (.enter .gmailSend a)).log .sendingGmail = st1
  obtain ⟨ms, h⟩ := getGmailService_trace w st1
  have h1 : st1.trace = st.trace ++ [.enter .gmailSend a, .log .sendingGmail] := by
    subst hst1; simp [St.log, St.emit]
  simp only [extStep, St.log, St.emit]
  split_ifs
  · exact ⟨ms, [.fatalGmailService], [], by simp [Run.st, h, h1]⟩
  · exact ⟨ms, [.toBytes], [], by simp [Run.st, h, h1]⟩
  · exact ⟨ms, [.errorSendingGmail], [buildEmail w a], by simp [Run.st, h, h1]⟩
  · exact ⟨ms, [], [buildEmail w a], by simp [Run.st, h, h1]⟩

theorem calls_gmailDo (ds : List Email) : calls (ds.map Event.gmailDo) = [] := by
  induction ds with
  | nil => rfl
  | cons m ms ih => simpa [calls] using ih

theorem smsSends_gmailDo (ds : List Email) : smsSends (ds.map Event.gmailDo) = [] := by
  induction ds with
  | nil => rfl
  | cons m ms ih => simpa [smsSends] using ih

theorem responses_gmailDo (ds : List Email) : responses (ds.map Event.gmailDo) = [] := by
  induction ds with
  | nil => rfl
  | cons m ms ih => simpa [responses] using ih

theorem gmailSend_calls (w : World) (a : Alert) (st : St) :
    calls (gmailSend w a st).st.trace = calls st.trace ++ [(.gmailSend, a)] := by
  obtain ⟨ms, ms2, ds, h⟩ := gmailSend_trace w a st
  simp [h, calls_append, calls, calls_logs, calls_gmailDo]

theorem gmailSend_smsSends (w : World) (a : Alert) (st : St) :
    smsSends (gmailSend w a st).st.trace = smsSends st.trace := by
  obtain ⟨ms, ms2, ds, h⟩ := gmailSend_trace w a st
  simp [h, smsSends_append, smsSends, smsSends_logs, smsSends_gmailDo]

theorem gmailSend_responses (w : World) (a : Alert) (st : St) :
    responses (gmailSend w a st).st.trace = responses st.trace := by
  obtain ⟨ms, ms2, ds, h⟩ := gmailSend_trace w a st
  simp [h, responses_append, responses, responses_logs, responses_gmailDo]

/-! ### The loop of `sms` -/

theorem smsLoop_calls (w : World) (tw : Twilio) (sender msg : Str) (rs : List Str) (st : St) :
    calls (smsLoop w tw sender msg rs st).trace = calls st.trace := by
  induction rs generalizing st with
  | nil => rfl
  | cons r rs ih =>
    simp only [smsLoop, extStep, St.log, St.emit]
    split_ifs <;> rw [ih] <;> simp [calls_append, calls]

theorem smsLoop_responses (w : World) (tw : Twilio) (sender msg : Str) (rs : List Str)
    (st : St) : responses (smsLoop w tw sender msg rs st).trace = responses st.trace := by
  induction rs generalizing st with
  | nil => rfl
  | cons r rs ih =>
    simp only [smsLoop, extStep, St.log, St.emit]
    split_ifs <;> rw [ih] <;> simp [responses_append, responses]

theorem smsLoop_gmailSends (w : World) (tw : Twilio) (sender msg : Str) (rs : List Str)
    (st : St) : gmailSends (smsLoop w tw sender msg rs st).trace = gmailSends st.trace := by
  induction rs generalizing st with
  | nil => rfl
  | cons r rs ih =>
    simp only [smsLoop, extStep, St.log, St.emit]
    split_ifs <;> rw [ih] <;> simp [gmailSends_append, gmailSends]

/-- The sends of the loop: one for each recipient that is not blank, in order,
all with the same message, whatever the outcome of each send. -/
theorem smsLoop_smsSends (w : World) (tw : Twilio) (sender msg : Str) (rs : List Str)
    (st : St) :
    smsSends (smsLoop w tw sender msg rs st).trace =
      smsSends st.trace ++ (rs.filter fun r => decide (TrimSpace r ≠ [])).map fun r => (r, msg) := by
  induction rs generalizing st with
  | nil => simp [smsLoop]
  | cons r rs ih =>
    simp only [smsLoop, extStep, St.log, St.emit]
    split_ifs with h1 h2 <;> rw [ih] <;> simp [smsSends_append, smsSends, h1]

/-- The skip lines of the loop: one for each blank recipient. -/
theorem smsLoop_skipLines (w : World) (tw : Twilio) (sender msg : Str) (rs : List Str)
    (st : St) :
    skipLines (smsLoop w tw sender msg rs st).trace =
      skipLines st.trace + (rs.filter fun r => decide (TrimSpace r = [])).length := by
  induction rs generalizing st with
  | nil => simp [smsLoop]
  | cons r rs ih =>
    by_cases h1 : TrimSpace r = []
    · simp only [smsLoop, St.log, St.emit]
      rw [if_neg (by simp [h1]), ih]
      simp [skipLines, List.filter_cons, h1]
      omega
    · simp only [smsLoop, extStep, St.log, St.emit]
      rw [if_pos h1]
      split_ifs <;> rw [ih] <;> simp [skipLines, List.filter_cons, h1]

/-! ## The split on `\s*,\s*` against the split on commas -/

theorem isSpace_of_isReSpace {c : Char} (h : isReSpace c = true) : isSpace c = true := by
  simp only [isReSpace, Bool.or_eq_true, beq_iff_eq] at h
  rcases h with (((h | h) | h) | h) | h <;> subst h <;> decide

theorem dropWhile_all {p : Char → Bool} {l : Str} (h : ∀ c ∈ l, p c = true) :
    l.dropWhile p = [] := by
  induction l with
  | nil => rfl
  | cons c l ih =>
    have hc := h c (by simp)
    simp only [List.dropWhile_cons, hc, if_true]
    exact ih fun d hd => h d (by simp [hd])

theorem dropWhile_all_append {p : Char → Bool} {l : Str} (s : Str)
    (h : ∀ c ∈ l, p c = true) : (l ++ s).dropWhile p = s.dropWhile p := by
  induction l with
  | nil => rfl
  | cons c l ih =>
    have hc := h c (by simp)
    simp only [List.cons_append, List.dropWhile_cons, hc, if_true]
    exact ih fun d hd => h d (by simp [hd])

theorem dropTrailing_append_all {p : Char → Bool} (s : Str) {l : Str}
    (h : ∀ c ∈ l, p c = true) : dropTrailing p (s ++ l) = dropTrailing p s := by
  unfold dropTrailing
  rw [List.reverse_append, dropWhile_all_append]
  intro c hc
  exact h c (by simpa using hc)

theorem TrimSpace_all_append {l : Str} (s : Str) (h : ∀ c ∈ l, isSpace c = true) :
    TrimSpace (l ++ s) = TrimSpace s := by
  unfold TrimSpace
  rw [dropWhile_all_append s h]

theorem TrimSpace_append_all (s : Str) {l : Str} (h : ∀ c ∈ l, isSpace c = true) :
    TrimSpace (s ++ l) = TrimSpace s := by
  induction s with
  | nil =>
    simp only [List.nil_append, TrimSpace, dropWhile_all h]
    rfl
  | cons c s ih =>
    by_cases hc : isSpace c = true
    · have e1 : TrimSpace (c :: s ++ l) = TrimSpace (s ++ l) := by
        simp [TrimSpace, List.dropWhile_cons, hc]
      have e2 : TrimSpace (c :: s) = TrimSpace s := by
        simp [TrimSpace, List.dropWhile_cons, hc]
      rw [e1, e2, ih]
    · have e1 : (c :: s ++ l).dropWhile isSpace = (c :: s) ++ l := by
        simp [List.dropWhile_cons, hc]
      have e2 : (c :: s).dropWhile isSpace = c :: s := by
        simp [List.dropWhile_cons, hc]
      simp only [TrimSpace, e2]
      rw [e1, dropTrailing_append_all _ h]

theorem splitComma_ne_nil (s : Str) : splitComma s ≠ [] := by
  induction s with
  | nil => simp [splitComma]
  | cons c s ih =>
    unfold splitComma
    split_ifs
    · simp
    · split <;> simp

/-- A string without a comma is a single piece. -/
theorem splitComma_no_comma {p : Str} (h : ',' ∉ p) : splitComma p = [p] := by
  induction p with
  | nil => rfl
  | cons c p ih =>
    have hc : c ≠ ',' := fun e => h (by simp [e])
    have hp : ',' ∉ p := fun e => h (by simp [e])
    simp [splitComma, hc, ih hp]

/-- A comma-free text in front of a string extends its first piece. -/
theorem splitComma_append {p : Str} (h : ',' ∉ p) (t hd : Str) (tl : List Str)
    (ht : splitComma t = hd :: tl) : splitComma (p ++ t) = (p ++ hd) :: tl := by
  induction p with
  | nil => simpa using ht
  | cons c p ih =>
    have hc : c ≠ ',' := fun e => h (by simp [e])
    have hp : ',' ∉ p := fun e => h (by simp [e])
    simp [splitComma, hc, ih hp]

theorem splitComma_comma (t : Str) : splitComma (',' :: t) = [] :: splitComma t := by
  simp [splitComma]

theorem not_comma_of_isReSpace {l : Str} (h : ∀ c ∈ l, isReSpace c = true) : ',' ∉ l := by
  intro hm
  have := h _ hm
  revert this
  decide

/-- An anchored match is a run of `\s`, a comma, and a run of `\s`. -/
theorem matchHere_some {s rest : Str} (h : matchHere s = some rest) :
    ∃ ws1 ws2 : Str, s = ws1 ++ ',' :: (ws2 ++ rest) ∧
      (∀ c ∈ ws1, isReSpace c = true) ∧ (∀ c ∈ ws2, isReSpace c = true) := by
  unfold matchHere at h
  split at h
  · rename_i r hr
    simp only [Option.some.injEq] at h
    refine ⟨s.takeWhile isReSpace, r.takeWhile isReSpace, ?_, ?_, ?_⟩
    · rw [← h, List.takeWhile_append_dropWhile, ← hr, List.takeWhile_append_dropWhile]
    · intro c hc
      exact List.mem_takeWhile_imp hc
    · intro c hc
      exact List.mem_takeWhile_imp hc
  · simp at h

/-- No anchored match at a string that starts with a comma is impossible. -/
theorem matchHere_comma (cs : Str) : matchHere (',' :: cs) ≠ none := by
  simp [matchHere, List.dropWhile_cons, show isReSpace ',' = false by decide]

/-- The leftmost match: comma-free text, a run of `\s`, a comma, a run of `\s`. -/
theorem findMatch_some {s pre rest : Str} (h : findMatch s = some (pre, rest)) :
    ∃ ws1 ws2 : Str, s = pre ++ (ws1 ++ ',' :: (ws2 ++ rest)) ∧ ',' ∉ pre ∧
      (∀ c ∈ ws1, isReSpace c = true) ∧ (∀ c ∈ ws2, isReSpace c = true) := by
  induction s generalizing pre rest with
  | nil => simp [findMatch] at h
  | cons c cs ih =>
    unfold findMatch at h
    split at h
    · rename_i r hr
      simp only [Option.some.injEq, Prod.mk.injEq] at h
      obtain ⟨ws1, ws2, e, h1, h2⟩ := matchHere_some hr
      refine ⟨ws1, ws2, ?_, ?_, h1, h2⟩
      · rw [← h.1, ← h.2]; simpa using e
      · rw [← h.1]; simp
    · rename_i hnone
      split at h
      · rename_i p r hr
        simp only [Option.some.injEq, Prod.mk.injEq] at h
        obtain ⟨ws1, ws2, e, h0, h1, h2⟩ := ih hr
        have hc : c ≠ ',' := by
          intro e; subst e; exact matchHere_comma cs hnone
        refine ⟨ws1, ws2, ?_, ?_, h1, h2⟩
        · rw [← h.1, ← h.2, e]; simp
        · rw [← h.1]
          simp only [List.mem_cons, not_or]
          exact ⟨fun e => hc e.symm, h0⟩
      · simp at h

/-- When there is no match the string has no comma. -/
theorem findMatch_none {s : Str} (h : findMatch s = none) : ',' ∉ s := by
  induction s with
  | nil => simp
  | cons c cs ih =>
    unfold findMatch at h
    split at h
    · simp at h
    · rename_i hnone
      split at h
      · simp at h
      · rename_i hr
        have hc : c ≠ ',' := by
          intro e; subst e; exact matchHere_comma cs hnone
        simp only [List.mem_cons, not_or]
        exact ⟨fun e => hc e.symm, ih hr⟩

/-- A match consumes input: what follows it is shorter than the string. -/
theorem findMatch_length {s pre rest : Str} (h : findMatch s = some (pre, rest)) :
    rest.length < s.length := by
  obtain ⟨ws1, ws2, e, _, _, _⟩ := findMatch_some h
  have := congrArg List.length e
  simp only [List.length_append, List.length_cons] at this
  omega

/-- The fuel given by `regSplit` is never exhausted: any fuel from the length of
the string on gives the same pieces. -/
theorem splitFrom_fuel (n m : Nat) (s : Str) (hn : s.length ≤ n) (hm : s.length ≤ m) :
    splitFrom n s = splitFrom m s := by
  induction n generalizing m s with
  | zero =>
    have : s = [] := List.length_eq_zero.mp (Nat.le_zero.mp hn)
    subst this
    cases m <;> simp [splitFrom, findMatch]
  | succ n ih =>
    cases m with
    | zero =>
      have : s = [] := List.length_eq_zero.mp (Nat.le_zero.mp hm)
      subst this
      simp [splitFrom, findMatch]
    | succ m =>
      unfold splitFrom
      split
      · rfl
      · rename_i pre rest hsome
        have hl := findMatch_length hsome
        rw [ih m rest (by omega) (by omega)]

/-- With enough fuel the pieces of the split on `\s*,\s*` are, up to
`TrimSpace`, the pieces of the split on commas. -/
theorem splitFrom_trim (n : Nat) (s : Str) (hn : s.length ≤ n) :
    (splitFrom n s).map TrimSpace = (splitComma s).map TrimSpace := by
  induction n generalizing s with
  | zero =>
    have : s = [] := List.length_eq_zero.mp (Nat.le_zero.mp hn)
    subst this
    rfl
  | succ n ih =>
    unfold splitFrom
    split
    · rename_i hnone
      rw [splitComma_no_comma (findMatch_none hnone)]
    · rename_i pre rest hsome
      obtain ⟨ws1, ws2, e, h0, h1, h2⟩ := findMatch_some hsome
      have hlen : rest.length ≤ n := by
        have := congrArg List.length e
        simp only [List.length_append, List.length_cons] at this
        omega
      obtain ⟨hd, tl, htl⟩ := List.exists_cons_of_ne_nil (splitComma_ne_nil rest)
      have e2 : splitComma (ws2 ++ rest) = (ws2 ++ hd) :: tl :=
        splitComma_append (not_comma_of_isReSpace h2) rest hd tl htl
      have hpre : ',' ∉ pre ++ ws1 := by
        simp only [List.mem_append, not_or]
        exact ⟨h0, not_comma_of_isReSpace h1⟩
      have e3 : splitComma s = (pre ++ ws1) :: (ws2 ++ hd) :: tl := by
        rw [e, ← List.append_assoc]
        have := splitComma_append hpre (',' :: (ws2 ++ rest)) [] ((ws2 ++ hd) :: tl)
          (by rw [splitComma_comma, e2])
        simpa using this
      rw [e3, List.map_cons, List.map_cons, List.map_cons, ih rest hlen, htl, List.map_cons,
        TrimSpace_append_all pre (fun c hc => isSpace_of_isReSpace (h1 c hc)),
        TrimSpace_all_append hd (fun c hc => isSpace_of_isReSpace (h2 c hc))]

/-- The pieces of `regSplit`, trimmed, are the trimmed pieces of the split on
commas. -/
theorem regSplit_trim (s : Str) : (regSplit s).map TrimSpace = trimmedPieces s := by
  unfold regSplit trimmedPieces
  split_ifs with h
  · subst h; rfl
  · exact splitFrom_trim _ s (le_refl _)

theorem sms_calls (w : World) (a : Alert) (st : St) :
    calls (sms w a st).trace = calls st.trace ++ [(.sms, a)] := by
  simp [sms, smsLoop_calls, St.log, St.emit, calls_append, calls]

theorem sms_responses (w : World) (a : Alert) (st : St) :
    responses (sms w a st).trace = responses st.trace := by
  simp [sms, smsLoop_responses, St.log, St.emit, responses_append, responses]

theorem sms_smsSends (w : World) (a : Alert) (st : St) :
    smsSends (sms w a st).trace =
      smsSends st.trace ++
        ((regSplit (a.Annotations.get "phones".toList)).filter fun r =>
          decide (TrimSpace r ≠ [])).map fun r => (r, smsMessage a) := by
  simp only [sms, smsLoop_smsSends, St.log, St.emit]
  simp [smsSends_append, smsSends]

theorem sms_skipLines (w : World) (a : Alert) (st : St) :
    skipLines (sms w a st).trace =
      skipLines st.trace +
        ((regSplit (a.Annotations.get "phones".toList)).filter fun r =>
          decide (TrimSpace r = [])).length := by
  simp only [sms, smsLoop_skipLines, St.log, St.emit]
  simp [skipLines]

theorem filter_trim_map (l : List Str) :
    (l.filter fun r => decide (TrimSpace r ≠ [])).map TrimSpace =
      (l.map TrimSpace).filter fun r => decide (r ≠ []) := by
  induction l with
  | nil => rfl
  | cons r l ih =>
    by_cases h : TrimSpace r = [] <;> simpa [List.filter_cons, h] using ih

theorem filter_trim_count (l : List Str) :
    (l.filter fun r => decide (TrimSpace r = [])).length = (l.map TrimSpace).count [] := by
  induction l with
  | nil => rfl
  | cons r l ih =>
    by_cases h : TrimSpace r = []
    · simp [List.filter_cons, h, ih]
    · have h2 : ¬ ([] = TrimSpace r) := fun e => h e.symm
      simp [List.filter_cons, h, ih, List.count_cons, h2]

/-- C5: whatever the "phones" annotation and whatever sends fail, `sms` makes
one send for each entry of the split that is not empty, in the order of the
list, and for each empty entry no send and one "ignore empty recipient" line,
an entry being empty when nothing is left of it once trimmed (the test the code
makes); the entries, trimmed, are the trimmed pieces of the split on commas.
For "+1,,+2" there are two sends and one skip line. -/
theorem sms_sends_and_skips (w : World) (alert : Alert) (st : St) :
    smsSends (sms w alert st).trace =
        smsSends st.trace ++
          ((regSplit (alert.Annotations.get "phones".toList)).filter fun r =>
            decide (TrimSpace r ≠ [])).map (fun r => (r, smsMessage alert)) ∧
      (smsSends (sms w alert st).trace).map (fun p => TrimSpace p.1) =
        (smsSends st.trace).map (fun p => TrimSpace p.1) ++
          (trimmedPieces (alert.Annotations.get "phones".toList)).filter
            (fun r => decide (r ≠ [])) ∧
      skipLines (sms w alert st).trace =
        skipLines st.trace + (trimmedPieces (alert.Annotations.get "phones".toList)).count [] ∧
      smsSends (sms w criticalAlert st).trace =
        smsSends st.trace ++
          [("+1".toList, "disk full Status: firing".toList),
           ("+2".toList, "disk full Status: firing".toList)] ∧
      skipLines (sms w criticalAlert st).trace = skipLines st.trace + 1 := by
  refine ⟨sms_smsSends w alert st, ?_, ?_, ?_, ?_⟩
  · rw [sms_smsSends, List.map_append, List.map_map]
    have : ((fun p : Str × Str => TrimSpace p.1) ∘ fun r => (r, smsMessage alert)) = TrimSpace :=
      rfl
    rw [this, filter_trim_map, regSplit_trim]
  · rw [sms_skipLines, filter_trim_count, regSplit_trim]
  · rw [sms_smsSends]
    rfl
  · rw [sms_skipLines]
    rfl

/-- C8: every SMS sent by `sms` carries the same body, the "summary" annotation
followed by " Status: " and the status of the alert, whatever the recipient.
For summary "disk full" and status "firing" it is "disk full Status: firing". -/
theorem sms_message_body (w : World) (alert : Alert) (st : St) :
    smsSends (sms w alert st).trace =
        smsSends st.trace ++
          ((regSplit (alert.Annotations.get "phones".toList)).filter fun r =>
            decide (TrimSpace r ≠ [])).map
            (fun r => (r, alert.Annotations.get "summary".toList ++ " Status: ".toList ++
              alert.Status)) ∧
      (smsSends (sms w (mkAlert "critical" "disk full" "" "+1,+2") st0).trace).map Prod.snd =
        ["disk full Status: firing".toList, "disk full Status: firing".toList] := by
  refine ⟨sms_smsSends w alert st, ?_⟩
  rw [sms_smsSends]
  rfl

/-- C10, at the "phones" annotation " +1": the SMS is sent to " +1", which
starts with a space; the trimmed piece is "+1". -/
theorem sms_target_not_trimmed :
    smsSends (sms (worldOk (batchOf paddedAlert)) paddedAlert st0).trace =
        [(" +1".toList, "disk full Status: firing".toList)] ∧
      trimmedPieces (paddedAlert.Annotations.get "phones".toList) = ["+1".toList] := by
  decide

/-- C6, at the "emails" annotation " a@x.com ,b@y.com": the first recipient
built by `gmailSend` is " a@x.com", with its leading space, so the list is not
the trimmed list. -/
theorem gmailSend_to_not_trimmed :
    (buildEmail (worldOk (batchOf paddedAlert)) paddedAlert).To =
        [" a@x.com".toList, "b@y.com".toList] ∧
      (buildEmail (worldOk (batchOf paddedAlert)) paddedAlert).To ≠
        ["a@x.com".toList, "b@y.com".toList] ∧
      gmailSends (gmailSend (worldOk (batchOf paddedAlert)) paddedAlert st0).st.trace =
        [{ From := [], To := [" a@x.com".toList, "b@y.com".toList],
           Subject := "ICP Email Notification".toList, Text := "disk full".toList }] := by
  decide

/-- C7 fails for an alert without annotations: the recipient list built by
`gmailSend` is not empty, it holds one empty string. -/
theorem gmailSend_to_absent_emails :
    bareAlert.Annotations.get "emails".toList = [] ∧
      (buildEmail (worldOk (batchOf bareAlert)) bareAlert).To ≠ [] ∧
      (buildEmail (worldOk (batchOf bareAlert)) bareAlert).To = [[]] := by
  decide

theorem getGmailService_ok (w : World) (st : St)
    (h : ∀ k, k < 5 → w.ok (st.step + k) = true) :
    getGmailService w st = (true, { st with step := st.step + 5 }) := by
  have h0 := h 0 (by omega)
  have h1 := h 1 (by omega)
  have h2 := h 2 (by omega)
  have h3 := h 3 (by omega)
  have h4 := h 4 (by omega)
  simp only [Nat.add_zero] at h0
  simp [getGmailService, extStep, h0, h1, h2, h3, h4, Nat.add_assoc]

/-- C7 as amended: when the "emails" annotation is absent or empty the
recipient list built by `gmailSend` is the one-element list holding the empty
string, and nothing guards the send: whenever the credentials load and the
message serialises, the send is attempted with that list. -/
theorem gmailSend_empty_emails (w : World) (alert : Alert) (st : St)
    (h : alert.Annotations.get "emails".toList = [])
    (hok : ∀ k, k < 6 → w.ok (st.step + k) = true) :
    (buildEmail w alert).To = [[]] ∧
      gmailSends (gmailSend w alert st).st.trace = gmailSends st.trace ++ [buildEmail w alert] := by
  constructor
  · show regSplit (alert.Annotations.get "emails".toList) = [[]]
    rw [h]
    rfl
  · unfold gmailSend
    generalize hst1 : (st.emit (.enter .gmailSend alert)).log .sendingGmail = st1
    have hs : st1.step = st.step := by subst hst1; rfl
    have ht : st1.trace = st.trace ++ [.enter .gmailSend alert, .log .sendingGmail] := by
      subst hst1; simp [St.log, St.emit]
    have hg := getGmailService_ok w st1 (fun k hk => by rw [hs]; exact hok k (by omega))
    have h5 : w.ok (st1.step + 5) = true := by rw [hs]; exact hok 5 (by omega)
    simp only [hg, extStep, h5, St.log, St.emit]
    split_ifs <;> simp_all [Run.st, gmailSends_append, gmailSends]

theorem gmailSend_empty_emails_witness :
    (buildEmail (worldOk (batchOf bareAlert)) bareAlert).To = [[]] ∧
      gmailSends (gmailSend (worldOk (batchOf bareAlert)) bareAlert st0).st.trace =
        gmailSends st0.trace ++ [buildEmail (worldOk (batchOf bareAlert)) bareAlert] :=
  gmailSend_empty_emails (worldOk (batchOf bareAlert)) bareAlert st0 rfl (fun _ _ => rfl)

/-- C2, at a batch of one warning alert when the client secret cannot be read:
`gmailSend` ends the process with `log.Fatalf`, and `webhook` writes no
response at all. -/
theorem webhook_fatal_no_response :
    webhook (worldFail (batchOf warningAlert)) [] st0 =
        .exit { trace := [.log (.alerts [] []),
                  .log (.alert warningAlert.Status warningAlert.Labels warningAlert.Annotations),
                  .enter .gmailSend warningAlert, .log .sendingGmail, .log .readSecret,
                  .log .fatalGmailService],
                step := 1 } ∧
      responses (webhook (worldFail (batchOf warningAlert)) [] st0).st.trace = [] := by
  decide

/-- C4, at a batch of one critical alert when the client secret cannot be read:
`gmailSend` ends the process with `log.Fatalf`, and `sms` is never called for
the alert. -/
theorem webhook_fatal_no_sms :
    (webhook (worldFail (batchOf criticalAlert)) [] st0).returned = false ∧
      calls (webhook (worldFail (batchOf criticalAlert)) [] st0).st.trace =
        [(.gmailSend, criticalAlert)] ∧
      smsSends (webhook (worldFail (batchOf criticalAlert)) [] st0).st.trace = [] ∧
      (webhook (worldFail (batchOf criticalAlert)) [] st0).st.trace.getLast? =
        some (.log .fatalGmailService) := by
  decide

/-! ### The loop over the alerts -/

theorem gmailSend_returned_calls (w : World) (a : Alert) (st : St) :
    calls ((gmailSend w a st).andThen fun st2 => .cont (sms w a st2)).st.trace =
      calls st.trace ++
        if (gmailSend w a st).returned then [(.gmailSend, a), (.sms, a)] else [(.gmailSend, a)] := by
  have hc := gmailSend_calls w a st
  cases hr : gmailSend w a st with
  | cont st2 =>
    rw [hr] at hc
    simp only [Run.st] at hc
    simp [Run.andThen, Run.st, Run.returned, sms_calls, hc]
  | exit st2 =>
    rw [hr] at hc
    simp only [Run.st] at hc
    simp [Run.andThen, Run.st, Run.returned, hc]

/-- The calls made for one alert: a prefix of its dispatch, and the whole of it
when the body returns. -/
theorem alertBody_calls (w : World) (a : Alert) (st : St) :
    ∃ cs, calls (alertBody w a st).st.trace = calls st.trace ++ cs ∧ cs <+: dispatch w a ∧
      ((alertBody w a st).returned = true → cs = dispatch w a) := by
  unfold alertBody dispatch
  simp only []
  split_ifs with h1 h2
  · rw [gmailSend_returned_calls]
    cases hr : gmailSend w a (st.log (.alert a.Status a.Labels a.Annotations)) with
    | cont st2 =>
      refine ⟨[(.gmailSend, a), (.sms, a)], ?_, List.prefix_refl _, fun _ => rfl⟩
      simp [Run.returned, St.log, St.emit, calls_append, calls]
    | exit st2 =>
      refine ⟨[(.gmailSend, a)], ?_, ⟨[(.sms, a)], rfl⟩, ?_⟩
      · simp [Run.returned, St.log, St.emit, calls_append, calls]
      · simp [Run.andThen, Run.returned]
  · refine ⟨[(.gmailSend, a)], ?_, List.prefix_refl _, fun _ => rfl⟩
    rw [gmailSend_calls]
    simp [St.log, St.emit, calls_append, calls]
  · refine ⟨[], ?_, List.prefix_refl _, fun _ => rfl⟩
    simp [Run.st, St.log, St.emit, calls_append, calls]

/-- The calls made by the loop: a prefix of the concatenated dispatches of the
alerts, and the whole of it when the loop returns. -/
theorem alertLoop_calls (w : World) (alerts : List Alert) (st : St) :
    ∃ cs, calls (alertLoop w alerts st).st.trace = calls st.trace ++ cs ∧
      cs <+: alerts.flatMap (dispatch w) ∧
      ((alertLoop w alerts st).returned = true → cs = alerts.flatMap (dispatch w)) := by
  induction alerts generalizing st with
  | nil => exact ⟨[], by simp [alertLoop, Run.st], by simp, fun _ => by simp⟩
  | cons a rest ih =>
    obtain ⟨cs, h1, h2, h3⟩ := alertBody_calls w a st
    unfold alertLoop
    cases hr : alertBody w a st with
    | exit st2 =>
      rw [hr] at h1
      refine ⟨cs, by simpa [Run.andThen, Run.st] using h1, ?_, ?_⟩
      · rw [List.flatMap_cons]
        exact h2.trans (List.prefix_append _ _)
      · simp [Run.andThen, Run.returned]
    | cont st2 =>
      rw [hr] at h1 h3
      simp only [Run.st] at h1
      have hcs : cs = dispatch w a := h3 rfl
      obtain ⟨ds, g1, g2, g3⟩ := ih st2
      refine ⟨dispatch w a ++ ds, ?_, ?_, ?_⟩
      · simp only [Run.andThen]
        rw [g1, h1, hcs, List.append_assoc]
      · rw [List.flatMap_cons]
        exact (List.prefix_append_right_inj _).mpr g2
      · intro hret
        simp only [Run.andThen] at hret
        rw [List.flatMap_cons, g3 hret]

theorem alertLoop_responses (w : World) (alerts : List Alert) (st : St) :
    responses (alertLoop w alerts st).st.trace = responses st.trace := by
  induction alerts generalizing st with
  | nil => rfl
  | cons a rest ih =>
    have hb : responses (alertBody w a st).st.trace = responses st.trace := by
      unfold alertBody
      simp only []
      split_ifs
      · cases hr : gmailSend w a (st.log (.alert a.Status a.Labels a.Annotations)) with
        | cont st2 =>
          have := gmailSend_responses w a (st.log (.alert a.Status a.Labels a.Annotations))
          rw [hr] at this
          simp only [Run.st] at this
          simp [Run.andThen, Run.st, sms_responses, this, St.log, St.emit, responses_append,
            responses]
        | exit st2 =>
          have := gmailSend_responses w a (st.log (.alert a.Status a.Labels a.Annotations))
          rw [hr] at this
          simp only [Run.st] at this
          simp [Run.andThen, Run.st, this, St.log, St.emit, responses_append, responses]
      · rw [gmailSend_responses]
        simp [St.log, St.emit, responses_append, responses]
      · simp [Run.st, St.log, St.emit, responses_append, responses]
    unfold alertLoop
    cases hr : alertBody w a st with
    | exit st2 =>
      rw [hr] at hb
      simpa [Run.andThen, Run.st] using hb
    | cont st2 =>
      rw [hr] at hb
      simp only [Run.st] at hb
      simp only [Run.andThen]
      rw [ih, hb]

/-- When the body decodes and the handler returns, it has written exactly one
response: status 200 and the success record. -/
theorem webhook_returned_response (w : World) (body : Str) (data : Data) (st : St)
    (h : w.decode body = .ok data) (hret : (webhook w body st).returned = true) :
    responses (webhook w body st).st.trace =
      responses st.trace ++
        [.writeHeader 200, .write "\x7b\"Status\":200,\"Message\":\"success\"\x7d".toList] := by
  unfold webhook at hret ⊢
  simp only [h] at hret ⊢
  have hl := alertLoop_responses w data.Alerts (st.log (.alerts data.GroupLabels data.CommonLabels))
  cases hr : alertLoop w data.Alerts (st.log (.alerts data.GroupLabels data.CommonLabels)) with
  | exit st2 =>
    rw [hr] at hret
    simp [Run.andThen, Run.returned] at hret
  | cont st2 =>
    rw [hr] at hl
    simp only [Run.st] at hl
    have hj : jsonMarshal w.shortEscapes { Status := 200, Message := "success".toList } =
        "\x7b\"Status\":200,\"Message\":\"success\"\x7d".toList := rfl
    simp [Run.andThen, Run.st, asJson, St.emit, responses_append, responses, hl, St.log]
    exact hj

/-- For a body that decodes to a batch, the notifier calls made by `webhook` are
an initial part of the concatenation, in the order of the alerts, of the
dispatches of the alerts, and the whole concatenation whenever the handler
returns. -/
theorem webhook_calls_initial (w : World) (body : Str) (data : Data) (st : St)
    (h : w.decode body = .ok data) :
    calls (webhook w body st).st.trace <+:
        calls st.trace ++ data.Alerts.flatMap (dispatch w) ∧
      calls st.trace <+: calls (webhook w body st).st.trace ∧
      ((webhook w body st).returned = true →
        calls (webhook w body st).st.trace =
          calls st.trace ++ data.Alerts.flatMap (dispatch w)) := by
  obtain ⟨cs, h1, h2, h3⟩ :=
    alertLoop_calls w data.Alerts (st.log (.alerts data.GroupLabels data.CommonLabels))
  have h0 : calls (st.log (.alerts data.GroupLabels data.CommonLabels)).trace = calls st.trace := by
    simp [St.log, St.emit, calls_append, calls]
  rw [h0] at h1
  have hw : calls (webhook w body st).st.trace = calls st.trace ++ cs := by
    unfold webhook
    simp only [h]
    cases hr : alertLoop w data.Alerts (st.log (.alerts data.GroupLabels data.CommonLabels)) with
    | exit st2 =>
      rw [hr] at h1
      simpa [Run.andThen, Run.st] using h1
    | cont st2 =>
      rw [hr] at h1
      simp only [Run.st] at h1
      simp [Run.andThen, Run.st, asJson, St.emit, calls_append, calls, h1]
  have hr : (webhook w body st).returned = true →
      (alertLoop w data.Alerts (st.log (.alerts data.GroupLabels data.CommonLabels))).returned
        = true := by
    unfold webhook
    simp only [h]
    cases alertLoop w data.Alerts (st.log (.alerts data.GroupLabels data.CommonLabels)) <;>
      simp [Run.andThen, Run.returned]
  refine ⟨?_, ?_, ?_⟩
  · rw [hw]
    exact (List.prefix_append_right_inj _).mpr h2
  · rw [hw]
    exact List.prefix_append _ _
  · intro hret
    rw [hw, h3 (hr hret)]

/-- C9, at the batch of a warning alert followed by a critical alert when the
client secret cannot be read: the only notifier call is `gmailSend` for the
first alert, since `log.Fatalf` ends the process there, and not the
concatenation of the dispatches, which the same batch gives when the
credentials load. -/
theorem webhook_calls_cut_short :
    calls (webhook (worldFail ⟨[], [], [warningAlert, criticalAlert]⟩) [] st0).st.trace =
        [(.gmailSend, warningAlert)] ∧
      [warningAlert, criticalAlert].flatMap
          (dispatch (worldFail ⟨[], [], [warningAlert, criticalAlert]⟩)) =
        [(.gmailSend, warningAlert), (.gmailSend, criticalAlert), (.sms, criticalAlert)] ∧
      (webhook (worldFail ⟨[], [], [warningAlert, criticalAlert]⟩) [] st0).returned = false ∧
      calls (webhook (worldOk ⟨[], [], [warningAlert, criticalAlert]⟩) [] st0).st.trace =
        [(.gmailSend, warningAlert), (.gmailSend, criticalAlert), (.sms, criticalAlert)] := by
  decide

set_option maxRecDepth 100000 in
/-- On the ASCII runes, folding the case does not change the upper-case form. -/
theorem foldCase_ascii (n : Nat) (hn : n < 128) :
    (foldCase (Char.ofNat n)).toNat ≤ 127 ∧
      (if 97 ≤ (foldCase (Char.ofNat n)).toNat ∧ (foldCase (Char.ofNat n)).toNat ≤ 122
        then Char.ofNat ((foldCase (Char.ofNat n)).toNat - 32) else foldCase (Char.ofNat n)) =
      (if 97 ≤ (Char.ofNat n).toNat ∧ (Char.ofNat n).toNat ≤ 122
        then Char.ofNat ((Char.ofNat n).toNat - 32) else Char.ofNat n) := by
  revert n
  decide

theorem toUpperRune_foldCase (tbl : Char → Char) (c : Char) (h : c.toNat ≤ 127) :
    toUpperRune tbl (foldCase c) = toUpperRune tbl c := by
  have := foldCase_ascii c.toNat (by omega)
  rw [Char.ofNat_toNat] at this
  unfold toUpperRune
  rw [if_pos this.1, if_pos h]
  exact this.2

/-- An ASCII string and its case-folded form have the same upper-case form. -/
theorem ToUpper_foldCase (tbl : Char → Char) (s : Str) (h : ∀ c ∈ s, c.toNat ≤ 127) :
    ToUpper tbl (s.map foldCase) = ToUpper tbl s := by
  induction s with
  | nil => rfl
  | cons c s ih =>
    have hc := h c (by simp)
    have hs := ih fun d hd => h d (by simp [hd])
    simp only [ToUpper, List.map_cons, List.map_map] at hs ⊢
    rw [toUpperRune_foldCase tbl c hc]
    simp only [List.map_map, hs]

/-- The notifiers chosen for an alert depend on its severity only through the
upper-case form. -/
theorem dispatch_notifiers_congr (w : World) (a b : Alert)
    (h : ToUpper w.upper (a.Labels.get "severity".toList) =
      ToUpper w.upper (b.Labels.get "severity".toList)) :
    (dispatch w a).map Prod.fst = (dispatch w b).map Prod.fst := by
  unfold dispatch
  simp only [h]
  split_ifs <;> rfl

/-- C1, at a batch of one alert with severity "Critical" when the client secret
cannot be read: the upper-cased severity is CRITICAL, yet the only notifier
reached is `gmailSend`; `log.Fatalf` ends the process before `sms` is called and
no SMS is sent.  When the credentials load the same alert reaches both. -/
theorem critical_reaches_gmailSend_only :
    ToUpper (worldFail (batchOf capitalAlert)).upper
        (capitalAlert.Labels.get "severity".toList) = "CRITICAL".toList ∧
      calls (webhook (worldFail (batchOf capitalAlert)) [] st0).st.trace =
        [(.gmailSend, capitalAlert)] ∧
      smsSends (webhook (worldFail (batchOf capitalAlert)) [] st0).st.trace = [] ∧
      (webhook (worldFail (batchOf capitalAlert)) [] st0).returned = false ∧
      calls (webhook (worldOk (batchOf capitalAlert)) [] st0).st.trace =
        [(.gmailSend, capitalAlert), (.sms, capitalAlert)] := by
  decide

/-! ## The response body read back -/

theorem hexVal_hexDigit : ∀ k : Nat, k < 16 → hexVal (hexDigit k) = some k := by
  decide

/-- Reading one rune looks only at the text it consumes. -/
theorem decodeOne_append {l r : Str} {c : Char} (rest : Str)
    (h : decodeOne l = some (c, r)) : decodeOne (l ++ rest) = some (c, r ++ rest) := by
  unfold decodeOne at h ⊢
  match l, h with
  | [], h => simp at h
  | x :: l1, h =>
    simp only [List.cons_append] at h ⊢
    split_ifs at h ⊢ with h1 h2
    · match l1, h with
      | [], h => simp at h
      | e :: l2, h =>
        simp only [List.cons_append] at h ⊢
        split_ifs at h ⊢ with h3
        · match l2, h with
          | [], h => simp at h
          | [_], h => simp at h
          | [_, _], h => simp at h
          | [_, _, _], h => simp at h
          | a :: b :: c2 :: d :: l3, h =>
            simp only [List.cons_append, Option.map_eq_some'] at h ⊢
            obtain ⟨ch, hch, e1⟩ := h
            simp only [Prod.mk.injEq] at e1
            exact ⟨ch, hch, by simp [e1.1, e1.2]⟩
        · simp only [Option.map_eq_some'] at h ⊢
          obtain ⟨ch, hch, e1⟩ := h
          simp only [Prod.mk.injEq] at e1
          exact ⟨ch, hch, by simp [e1.1, ← e1.2]⟩
    · simp only [Option.some.injEq, Prod.mk.injEq] at h
      simp [h.1, ← h.2]

set_option maxRecDepth 100000 in
theorem decodeOne_jsonEscape_ascii : ∀ n : Nat, n < 128 → ∀ short : Bool,
    jsonSafe (Char.ofNat n) = false →
      decodeOne (jsonEscape short (Char.ofNat n)) = some (Char.ofNat n, []) := by
  decide


/-- What `encoding/json` writes for one rune reads back as that rune. -/
theorem decodeOne_encode (short : Bool) (c : Char) (rest : Str) :
    decodeOne ((if jsonSafe c then [c] else jsonEscape short c) ++ rest) = some (c, rest) := by
  by_cases hs : jsonSafe c = true
  · rw [if_pos hs]
    have h1 : c ≠ '\\' := by
      rintro rfl
      revert hs
      decide
    have h2 : c ≠ '"' := by
      rintro rfl
      revert hs
      decide
    have h3 : ¬ c.toNat < 0x20 := by
      simp only [jsonSafe, Bool.and_eq_true, decide_eq_true_eq] at hs
      omega
    simp [decodeOne, h1, h2, h3]
  · rw [if_neg hs]
    have hs2 : jsonSafe c = false := by simpa using hs
    have key : decodeOne (jsonEscape short c) = some (c, []) := by
      by_cases hn : c.toNat < 128
      · have := decodeOne_jsonEscape_ascii c.toNat hn short
        rw [Char.ofNat_toNat] at this
        exact this hs2
      · have hc : c = Char.ofNat 0x2028 ∨ c = Char.ofNat 0x2029 := by
          have h5 : c.toNat = 0x2028 ∨ c.toNat = 0x2029 := by
            by_contra hne
            have hsafe : jsonSafe c = true := by
              simp only [jsonSafe, Bool.and_eq_true, decide_eq_true_eq, bne_iff_ne, ne_eq]
              omega
            rw [hsafe] at hs2
            cases hs2
          rcases h5 with h5 | h5
          · left; rw [← Char.ofNat_toNat c, h5]
          · right; rw [← Char.ofNat_toNat c, h5]
        rcases hc with rfl | rfl <;> cases short <;> decide
    simpa using decodeOne_append rest key

theorem decodeOne_quote (rest : Str) : decodeOne ('"' :: rest) = none := by
  simp [decodeOne]

/-- A string literal written by `encoding/json` reads back as the string it was
written from, with enough fuel. -/
theorem unquoteFrom_encode (short : Bool) (e rest : Str) (n : Nat) (hn : e.length < n) :
    unquoteFrom n
        ((e.flatMap fun c => if jsonSafe c then [c] else jsonEscape short c) ++ '"' :: rest) =
      some (e, rest) := by
  induction e generalizing n with
  | nil =>
    obtain ⟨m, rfl⟩ : ∃ m, n = m + 1 := ⟨n - 1, by simp at hn; omega⟩
    simp [unquoteFrom, decodeOne_quote]
  | cons c e ih =>
    obtain ⟨m, rfl⟩ : ∃ m, n = m + 1 := ⟨n - 1, by simp at hn; omega⟩
    have hm : e.length < m := by simp at hn; omega
    rw [List.flatMap_cons, List.append_assoc]
    simp only [unquoteFrom, decodeOne_encode, ih m hm]

theorem length_le_flatMap_encode (short : Bool) (e : Str) :
    e.length ≤ (e.flatMap fun c => if jsonSafe c then [c] else jsonEscape short c).length := by
  induction e with
  | nil => simp
  | cons c e ih =>
    have h1 : 1 ≤ (if jsonSafe c then [c] else jsonEscape short c).length := by
      split_ifs
      · simp
      · unfold jsonEscape
        simp only []
        split_ifs <;> simp
    simp only [List.flatMap_cons, List.length_append, List.length_cons]
    omega

theorem expect_append (p t : Str) : expect p (p ++ t) = some t := by
  induction p with
  | nil => cases t <;> rfl
  | cons c p ih => simp [expect, ih]

/-- The body `asJson` writes for status 400 reads back as the record with
Status 400 and the message, whatever the message. -/
theorem readResponse_jsonMarshal_400 (short : Bool) (e : Str) :
    readResponse (jsonMarshal short { Status := 400, Message := e }) =
      some { Status := 400, Message := e } := by
  have hd : Nat.toDigits 10 400 = ['4', '0', '0'] := by decide
  have hshape : jsonMarshal short { Status := 400, Message := e } =
      "\x7b\"Status\":".toList ++ ('4' :: '0' :: '0' :: (",\"Message\":\"".toList ++
        ((e.flatMap fun c => if jsonSafe c then [c] else jsonEscape short c) ++
          '"' :: "\x7d".toList))) := by
    simp [jsonMarshal, jsonQuote, hd]
  rw [hshape]
  unfold readResponse
  rw [expect_append]
  have hn : ∀ t : Str, readNat ('4' :: '0' :: '0' :: (",\"Message\":\"".toList ++ t)) =
      some (400, ",\"Message\":\"".toList ++ t) := fun t => rfl
  simp only [hn, expect_append]
  rw [unquoteFrom_encode]
  · simp
  · have := length_le_flatMap_encode short e
    simp only [List.length_append, List.length_cons]
    omega

theorem jsonQuote_safe (short : Bool) (s : Str) (h : ∀ c ∈ s, jsonSafe c = true) :
    jsonQuote short s = '"' :: s ++ ['"'] := by
  have : (s.flatMap fun c => if jsonSafe c then [c] else jsonEscape short c) = s := by
    induction s with
    | nil => rfl
    | cons c s ih =>
      have hc := h c (by simp)
      simp only [List.flatMap_cons, hc, if_true, List.singleton_append]
      rw [ih fun d hd => h d (by simp [hd])]
  simp [jsonQuote, this]

/-- C3: when decoding the body fails with error `e`, `webhook` writes status 400
and a body that is a JSON text whose Status field reads 400 and whose Message
field reads `e`, whatever characters `e` holds, and does nothing else: no
notifier is called and no second response is written.  When `e` needs no
escaping the body is the literal text with `e` between the quotes. -/
theorem webhook_decode_error (w : World) (body e : Str) (st : St)
    (h : w.decode body = .error e) :
    webhook w body st =
        .cont { trace := st.trace ++
                  [.writeHeader 400,
                   .write (jsonMarshal w.shortEscapes { Status := 400, Message := e })],
                step := st.step } ∧
      readResponse (jsonMarshal w.shortEscapes { Status := 400, Message := e }) =
        some { Status := 400, Message := e } ∧
      calls (webhook w body st).st.trace = calls st.trace ∧
      smsSends (webhook w body st).st.trace = smsSends st.trace ∧
      gmailSends (webhook w body st).st.trace = gmailSends st.trace ∧
      responses (webhook w body st).st.trace =
        responses st.trace ++
          [.writeHeader 400,
           .write (jsonMarshal w.shortEscapes { Status := 400, Message := e })] ∧
      ((∀ c ∈ e, jsonSafe c = true) →
        jsonMarshal w.shortEscapes { Status := 400, Message := e } =
          "\x7b\"Status\":400,\"Message\":\"".toList ++ e ++ "\"\x7d".toList) := by
  have hw : webhook w body st =
      .cont { trace := st.trace ++
                [.writeHeader 400,
                 .write (jsonMarshal w.shortEscapes { Status := 400, Message := e })],
              step := st.step } := by
    simp [webhook, h, asJson, St.emit]
  refine ⟨hw, readResponse_jsonMarshal_400 _ e, ?_, ?_, ?_, ?_, ?_⟩
  · simp [hw, Run.st, calls_append, calls]
  · simp [hw, Run.st, smsSends_append, smsSends]
  · simp [hw, Run.st, gmailSends_append, gmailSends]
  · simp [hw, Run.st, responses_append, responses]
  · intro hs
    simp only [jsonMarshal, jsonQuote_safe _ _ hs]
    have : Nat.toDigits 10 400 = ['4', '0', '0'] := by decide
    rw [this]
    simp

theorem webhook_decode_error_witness :
    webhook (worldBad "invalid character '<' looking for beginning of value".toList) [] st0 =
        .cont { trace := [.writeHeader 400,
                  .write ("\x7b\"Status\":400,\"Message\":\"invalid character '\\u003c' " ++
                    "looking for beginning of value\"\x7d").toList],
                step := 0 } ∧
      readResponse ("\x7b\"Status\":400,\"Message\":\"invalid character '\\u003c' " ++
          "looking for beginning of value\"\x7d").toList =
        some { Status := 400,
               Message := "invalid character '<' looking for beginning of value".toList } :=
  ⟨(webhook_decode_error
      (worldBad "invalid character '<' looking for beginning of value".toList) []
      "invalid character '<' looking for beginning of value".toList st0 rfl).1,
   (webhook_decode_error
      (worldBad "invalid character '<' looking for beginning of value".toList) []
      "invalid character '<' looking for beginning of value".toList st0 rfl).2.1⟩

end Amwebhook
